import Mathlib

/-!
Verification of the aiorwlock reader-writer lock core (`_RWLockCore` in
`aiorwlock/__init__.py`) as a shallow embedding.

The core state consists of
  * `_state`  : a signed counter (positive = shared hold count,
                negative = exclusive hold count),
  * `_waiting`: the number of tasks currently inside `acquire_write`
                (bumped before the wait, restored in the `finally`),
  * `_owning` : the list of tasks holding the lock, one entry per hold
                (appended on acquire, first occurrence removed on release).

Tasks are identified by opaque ids (here `Nat`).  All decision logic of the
three operations runs atomically inside the condition variable's critical
section, so each predicate evaluation is modelled as a pure function on the
core state; parking corresponds to a predicate evaluation returning `false`
(which leaves the state unchanged), and the two Python `RuntimeError`s are
modelled as explicit error values.
-/

namespace Aiorwlock

abbrev Task := Nat

/-- The mutable fields of `_RWLockCore`. -/
structure CoreState where
  state : Int
  waiting : Nat
  owning : List Task
deriving Repr, DecidableEq

/-- The state `_RWLockCore.__init__` constructs. -/
def initState : CoreState := ⟨0, 0, []⟩

/-- The two `RuntimeError`s the core raises. -/
inductive LockError where
  | upgradeForbidden
  | notHeld
deriving Repr, DecidableEq

/-- The predicate `_RWLockCore._acquire_write`, evaluated atomically under the
condition lock: returns `true` together with the updated state on success,
`false` (state unchanged) when the caller must park, and
`upgradeForbidden` when the caller holds the lock in shared mode. -/
def acquireWritePred (me : Task) (s : CoreState) :
    Except LockError (Bool × CoreState) :=
  if s.state = 0 ∨ (s.state < 0 ∧ me ∈ s.owning) then
    .ok (true, { s with state := s.state - 1, owning := s.owning ++ [me] })
  else if 0 < s.state ∧ me ∈ s.owning then
    .error .upgradeForbidden
  else
    .ok (false, s)

/-- The predicate `_RWLockCore._acquire_read`: when the lock is in write mode
it delegates to `_acquire_write` (recursion check); otherwise a reader enters
iff no writer is waiting or the caller already owns the lock. -/
def acquireReadPred (me : Task) (s : CoreState) :
    Except LockError (Bool × CoreState) :=
  if s.state < 0 then
    acquireWritePred me s
  else
    let ok : Bool := if s.waiting = 0 then true else decide (me ∈ s.owning)
    if ok then
      .ok (true, { s with state := s.state + 1, owning := s.owning ++ [me] })
    else
      .ok (false, s)

/-- Immediate outcome of a call to `acquire_read` / `acquire_write`:
the first evaluation of the wait predicate either grants the lock,
parks the caller, or raises. -/
inductive AcquireOutcome where
  | acquired (s : CoreState)
  | parked (s : CoreState)
  | failed (e : LockError) (s : CoreState)
deriving Repr, DecidableEq

/-- A call to `_RWLockCore.acquire_read`: the wait predicate is evaluated
once immediately; `true` returns, `false` parks (state untouched). -/
def acquireReadCall (me : Task) (s : CoreState) : AcquireOutcome :=
  match acquireReadPred me s with
  | .ok (true, s1) => .acquired s1
  | .ok (false, _) => .parked s
  | .error e => .failed e s

/-- A call to `_RWLockCore.acquire_write`: `_waiting` is incremented before
the wait and decremented in the `finally` clause, so it is restored both on
immediate success and when the predicate raises; while parked the caller
keeps `_waiting` bumped. -/
def acquireWriteCall (me : Task) (s : CoreState) : AcquireOutcome :=
  let s1 : CoreState := { s with waiting := s.waiting + 1 }
  match acquireWritePred me s1 with
  | .ok (true, s2) => .acquired { s2 with waiting := s2.waiting - 1 }
  | .ok (false, _) => .parked s1
  | .error e => .failed e { s1 with waiting := s1.waiting - 1 }

/-- Result of `_RWLockCore.release`: on success the new state plus whether
`notify_all` was called; on failure the error with the (unchanged) state,
since `_owning.remove` raises before any mutation. -/
inductive ReleaseResult where
  | ok (s : CoreState) (notified : Bool)
  | err (e : LockError) (s : CoreState)
deriving Repr, DecidableEq

/-- `_RWLockCore.release`: remove the first occurrence of the caller from
`_owning` (raising `notHeld` if absent), step `_state` one unit toward zero
according to its sign, and `notify_all` exactly when the lock became idle. -/
def releaseCall (me : Task) (s : CoreState) : ReleaseResult :=
  if me ∈ s.owning then
    let st : Int := if 0 < s.state then s.state - 1 else s.state + 1
    .ok ⟨st, s.waiting, s.owning.erase me⟩ (st == 0)
  else
    .err .notHeld s

/-- Whether a `release` call woke the parked waiters: only a successful
release that set `_state` to zero calls `notify_all`. -/
def ReleaseResult.notifies : ReleaseResult → Bool
  | .ok _ b => b
  | .err _ _ => false

/-! ### Handles

`_ReaderLock.release` and the inherited `_WriterLock.release` both forward
to the single core `release`, then clear the display flag `_locked`
(left set when the core raises, since the exception propagates first). -/

/-- A handle (`_ReaderLock` / `_WriterLock`): the shared core plus the
per-handle display flag `_locked`. -/
structure HandleState where
  core : CoreState
  locked : Bool
deriving Repr, DecidableEq

/-- `_ReaderLock.release`: forward to the core release, then clear
`_locked` (only reached when the core call returned normally). -/
def readerRelease (me : Task) (h : HandleState) :
    Except LockError HandleState :=
  match releaseCall me h.core with
  | .ok s1 _ => .ok ⟨s1, false⟩
  | .err e _ => .error e

/-- `_WriterLock` inherits `release` unchanged from `_ReaderLock`. -/
def writerRelease : Task → HandleState → Except LockError HandleState :=
  readerRelease

/-! ### Reachability

Atomic events of the core, in the granularity at which the condition
variable serialises them: one predicate evaluation of `acquire_read`, the
`_waiting` increment / decrement bracketing `acquire_write`, one predicate
evaluation of `acquire_write`, and one `release` call.  Both successful and
failing evaluations are events (a failing one leaves the state unchanged,
which the step functions reflect). -/

inductive Event where
  | readTry (me : Task)
  | writeEnter
  | writeTry (me : Task)
  | writeExit
  | release (me : Task)
deriving Repr, DecidableEq

/-- The state after one atomic event. -/
def step (s : CoreState) : Event → CoreState
  | .readTry me =>
      match acquireReadPred me s with
      | .ok (_, s1) => s1
      | .error _ => s
  | .writeEnter => { s with waiting := s.waiting + 1 }
  | .writeTry me =>
      match acquireWritePred me s with
      | .ok (_, s1) => s1
      | .error _ => s
  | .writeExit => { s with waiting := s.waiting - 1 }
  | .release me =>
      match releaseCall me s with
      | .ok s1 _ => s1
      | .err _ s1 => s1

/-- Run a sequence of events from a state. -/
def run (s : CoreState) (es : List Event) : CoreState :=
  es.foldl step s

/-- States reachable from the freshly constructed core by any sequence of
(successful or failing) acquire and release operations. -/
def Reachable (s : CoreState) : Prop :=
  ∃ es : List Event, run initState es = s

/-! ### Inversion lemmas for the acquire predicates -/

/-- Successful `_acquire_write` evaluations: guard and resulting state. -/
theorem acquireWritePred_ok_true {me : Task} {s s1 : CoreState}
    (h : acquireWritePred me s = .ok (true, s1)) :
    (s.state = 0 ∨ (s.state < 0 ∧ me ∈ s.owning)) ∧
      s1 = { s with state := s.state - 1, owning := s.owning ++ [me] } := by
  unfold acquireWritePred at h
  split at h
  · rename_i hc
    simp only [Except.ok.injEq, Prod.mk.injEq] at h
    exact ⟨hc, h.2.symm⟩
  · split at h
    · exact absurd h (by simp)
    · simp only [Except.ok.injEq, Prod.mk.injEq] at h
      exact absurd h.1 (by simp)

/-- Failed (`false`) `_acquire_write` evaluations leave the state unchanged. -/
theorem acquireWritePred_ok_false {me : Task} {s s1 : CoreState}
    (h : acquireWritePred me s = .ok (false, s1)) : s1 = s := by
  unfold acquireWritePred at h
  split at h
  · simp only [Except.ok.injEq, Prod.mk.injEq] at h
    exact absurd h.1 (by simp)
  · split at h
    · exact absurd h (by simp)
    · simp only [Except.ok.injEq, Prod.mk.injEq] at h
      exact h.2.symm

/-- In read mode (`_state ≥ 0`) the `_acquire_read` predicate admits the
caller iff no writer waits or the caller already owns the lock. -/
theorem acquireReadPred_nonneg (me : Task) (s : CoreState)
    (hge : ¬ s.state < 0) :
    acquireReadPred me s =
      (if s.waiting = 0 ∨ me ∈ s.owning then
        .ok (true, { s with state := s.state + 1, owning := s.owning ++ [me] })
      else .ok (false, s)) := by
  unfold acquireReadPred
  rw [if_neg hge]
  by_cases hw : s.waiting = 0
  · simp [hw]
  · by_cases hm : me ∈ s.owning <;> simp [hw, hm]

/-- Successful `_acquire_read` evaluations: either the shared fast path
(`_state ≥ 0`) or the delegated exclusive-recursion path (`_state < 0`). -/
theorem acquireReadPred_ok_true {me : Task} {s s1 : CoreState}
    (h : acquireReadPred me s = .ok (true, s1)) :
    (0 ≤ s.state ∧
      s1 = { s with state := s.state + 1, owning := s.owning ++ [me] }) ∨
    (s.state < 0 ∧ me ∈ s.owning ∧
      s1 = { s with state := s.state - 1, owning := s.owning ++ [me] }) := by
  by_cases hneg : s.state < 0
  · rw [acquireReadPred, if_pos hneg] at h
    obtain ⟨hc, hs⟩ := acquireWritePred_ok_true h
    rcases hc with h0 | ⟨_, hmem⟩
    · exact absurd h0 (by omega)
    · exact Or.inr ⟨hneg, hmem, hs⟩
  · rw [acquireReadPred_nonneg me s hneg] at h
    split at h
    · simp only [Except.ok.injEq, Prod.mk.injEq] at h
      exact Or.inl ⟨by omega, h.2.symm⟩
    · simp only [Except.ok.injEq, Prod.mk.injEq] at h
      exact absurd h.1 (by simp)

/-- Failed (`false`) `_acquire_read` evaluations leave the state unchanged. -/
theorem acquireReadPred_ok_false {me : Task} {s s1 : CoreState}
    (h : acquireReadPred me s = .ok (false, s1)) : s1 = s := by
  by_cases hneg : s.state < 0
  · rw [acquireReadPred, if_pos hneg] at h
    exact acquireWritePred_ok_false h
  · rw [acquireReadPred_nonneg me s hneg] at h
    split at h
    · simp only [Except.ok.injEq, Prod.mk.injEq] at h
      exact absurd h.1 (by simp)
    · simp only [Except.ok.injEq, Prod.mk.injEq] at h
      exact h.2.symm

/-- Successful `release` calls: guard, resulting state, and notify flag. -/
theorem releaseCall_ok {me : Task} {s s1 : CoreState} {b : Bool}
    (h : releaseCall me s = .ok s1 b) :
    me ∈ s.owning ∧
    s1 = ⟨if 0 < s.state then s.state - 1 else s.state + 1, s.waiting,
          s.owning.erase me⟩ ∧
    b = ((if 0 < s.state then s.state - 1 else s.state + 1) == 0) := by
  unfold releaseCall at h
  split at h
  · rename_i hmem
    simp only [ReleaseResult.ok.injEq] at h
    exact ⟨hmem, h.1.symm, h.2.symm⟩
  · exact absurd h (by simp)

/-- Failing `release` calls: only `notHeld`, only for non-owners, and the
state is returned unchanged (the exception fires before any mutation). -/
theorem releaseCall_err {me : Task} {s : CoreState} {e : LockError}
    {s1 : CoreState} (h : releaseCall me s = .err e s1) :
    e = .notHeld ∧ s1 = s ∧ me ∉ s.owning := by
  unfold releaseCall at h
  split at h
  · exact absurd h (by simp)
  · rename_i hmem
    simp only [ReleaseResult.err.injEq] at h
    exact ⟨h.1.symm, h.2.symm, hmem⟩

/-! ### The reachability invariant -/

/-- The core invariant: the magnitude of `_state` counts the holds in
`_owning`, and in write mode all holds belong to one task. -/
def Inv (s : CoreState) : Prop :=
  s.state.natAbs = s.owning.length ∧
  (s.state < 0 → ∀ x ∈ s.owning, ∀ y ∈ s.owning, x = y)

theorem inv_initState : Inv initState :=
  ⟨rfl, fun h => absurd h (by decide)⟩

theorem inv_acquireWritePred {me : Task} {s : CoreState} (hInv : Inv s)
    {b : Bool} {s1 : CoreState}
    (h : acquireWritePred me s = .ok (b, s1)) : Inv s1 := by
  obtain ⟨hlen, hexc⟩ := hInv
  cases b with
  | false => rw [acquireWritePred_ok_false h]; exact ⟨hlen, hexc⟩
  | true =>
    obtain ⟨hc, hs⟩ := acquireWritePred_ok_true h
    subst hs
    constructor
    · simp only [List.length_append, List.length_singleton]
      rcases hc with h0 | ⟨hneg, _⟩ <;> omega
    · intro _ x hx y hy
      simp only [List.mem_append, List.mem_singleton] at hx hy
      rcases hc with h0 | ⟨hneg, hmem⟩
      · have hnil : s.owning = [] :=
          List.length_eq_zero.mp (by omega)
        rcases hx with hx | hx
        · rw [hnil] at hx; cases hx
        · rcases hy with hy | hy
          · rw [hnil] at hy; cases hy
          · rw [hx, hy]
      · have hall := hexc hneg
        rcases hx with hx | hx <;> rcases hy with hy | hy
        · exact hall x hx y hy
        · rw [hy]; exact hall x hx me hmem
        · rw [hx]; exact (hall y hy me hmem).symm
        · rw [hx, hy]

theorem inv_acquireReadPred {me : Task} {s : CoreState} (hInv : Inv s)
    {b : Bool} {s1 : CoreState}
    (h : acquireReadPred me s = .ok (b, s1)) : Inv s1 := by
  obtain ⟨hlen, hexc⟩ := hInv
  cases b with
  | false => rw [acquireReadPred_ok_false h]; exact ⟨hlen, hexc⟩
  | true =>
    rcases acquireReadPred_ok_true h with ⟨hge, hs⟩ | ⟨hneg, hmem, hs⟩
    · subst hs
      constructor
      · simp only [List.length_append, List.length_singleton]; omega
      · intro hlt
        have hlt' : s.state + 1 < 0 := hlt
        omega
    · subst hs
      constructor
      · simp only [List.length_append, List.length_singleton]; omega
      · intro _ x hx y hy
        simp only [List.mem_append, List.mem_singleton] at hx hy
        have hall := hexc hneg
        rcases hx with hx | hx <;> rcases hy with hy | hy
        · exact hall x hx y hy
        · rw [hy]; exact hall x hx me hmem
        · rw [hx]; exact (hall y hy me hmem).symm
        · rw [hx, hy]

theorem inv_releaseCall {me : Task} {s : CoreState} (hInv : Inv s)
    {s1 : CoreState} {b : Bool}
    (h : releaseCall me s = .ok s1 b) : Inv s1 := by
  obtain ⟨hlen, hexc⟩ := hInv
  obtain ⟨hmem, hs, -⟩ := releaseCall_ok h
  subst hs
  have hpos : 0 < s.owning.length := List.length_pos.mpr
    (List.ne_nil_of_mem hmem)
  have herase : (s.owning.erase me).length = s.owning.length - 1 :=
    List.length_erase_of_mem hmem
  constructor
  · show (if 0 < s.state then s.state - 1 else s.state + 1).natAbs =
      (s.owning.erase me).length
    rw [herase]
    split <;> omega
  · intro hlt x hx y hy
    have hlt' : (if 0 < s.state then s.state - 1 else s.state + 1) < 0 := hlt
    have hneg : s.state < 0 := by
      by_cases hp : 0 < s.state
      · rw [if_pos hp] at hlt'; omega
      · rw [if_neg hp] at hlt'; omega
    exact hexc hneg x (List.mem_of_mem_erase hx) y (List.mem_of_mem_erase hy)

theorem inv_step (s : CoreState) (hInv : Inv s) (e : Event) :
    Inv (step s e) := by
  cases e with
  | readTry me =>
    simp only [step]
    split
    · rename_i b s1 h
      exact inv_acquireReadPred hInv h
    · exact hInv
  | writeEnter => exact ⟨hInv.1, hInv.2⟩
  | writeTry me =>
    simp only [step]
    split
    · rename_i b s1 h
      exact inv_acquireWritePred hInv h
    · exact hInv
  | writeExit => exact ⟨hInv.1, hInv.2⟩
  | release me =>
    simp only [step]
    split
    · rename_i s1 b h
      exact inv_releaseCall hInv h
    · rename_i e s1 h
      rw [(releaseCall_err h).2.1]
      exact hInv

theorem inv_run (s : CoreState) (hInv : Inv s) (es : List Event) :
    Inv (run s es) := by
  induction es generalizing s with
  | nil => exact hInv
  | cons e es ih => exact ih (step s e) (inv_step s hInv e)

theorem inv_reachable (s : CoreState) (h : Reachable s) : Inv s := by
  obtain ⟨es, rfl⟩ := h
  exact inv_run initState inv_initState es

/-! ### Further characterisations of the operations -/

/-- `_acquire_write` raises only for a caller holding the lock in shared
mode, and the only error it raises is the upgrade rejection. -/
theorem acquireWritePred_error {me : Task} {s : CoreState} {e : LockError}
    (h : acquireWritePred me s = .error e) :
    0 < s.state ∧ me ∈ s.owning ∧ e = .upgradeForbidden := by
  unfold acquireWritePred at h
  split at h
  · exact absurd h (by simp)
  · split at h
    · rename_i hc
      simp only [Except.error.injEq] at h
      exact ⟨hc.1, hc.2, h.symm⟩
    · exact absurd h (by simp)

/-- Conversely, a shared holder calling `_acquire_write` is rejected. -/
theorem acquireWritePred_error_of (me : Task) (s : CoreState)
    (hpos : 0 < s.state) (hmem : me ∈ s.owning) :
    acquireWritePred me s = .error .upgradeForbidden := by
  unfold acquireWritePred
  rw [if_neg (fun hc => by rcases hc with h0 | ⟨hn, _⟩ <;> omega),
    if_pos ⟨hpos, hmem⟩]

/-- A `false` (parking) `_acquire_write` evaluation happens exactly for a
non-owner finding the lock held. -/
theorem acquireWritePred_parked {me : Task} {s s1 : CoreState}
    (h : acquireWritePred me s = .ok (false, s1)) :
    me ∉ s.owning ∧ s.state ≠ 0 ∧ s1 = s := by
  unfold acquireWritePred at h
  split at h
  · simp only [Except.ok.injEq, Prod.mk.injEq] at h
    exact absurd h.1 (by simp)
  · rename_i hc1
    split at h
    · exact absurd h (by simp)
    · rename_i hc2
      simp only [Except.ok.injEq, Prod.mk.injEq] at h
      refine ⟨fun hmem => ?_, fun h0 => hc1 (Or.inl h0), h.2.symm⟩
      rcases lt_trichotomy s.state 0 with hlt | h0 | hgt
      · exact hc1 (Or.inr ⟨hlt, hmem⟩)
      · exact hc1 (Or.inl h0)
      · exact hc2 ⟨hgt, hmem⟩

/-- A non-owner finding the lock held parks in `_acquire_write`. -/
theorem acquireWritePred_parked_of {me : Task} {s : CoreState}
    (hnm : me ∉ s.owning) (h0 : s.state ≠ 0) :
    acquireWritePred me s = .ok (false, s) := by
  unfold acquireWritePred
  rw [if_neg (fun hc => by
      rcases hc with hc | ⟨_, hmem⟩
      · exact h0 hc
      · exact hnm hmem),
    if_neg (fun hc => hnm hc.2)]

/-- A non-owner calling `_acquire_read` while a writer waits parks,
whatever the mode of the lock. -/
theorem acquireReadPred_blocked (me : Task) (s : CoreState)
    (hw : s.waiting ≠ 0) (hnm : me ∉ s.owning) :
    acquireReadPred me s = .ok (false, s) := by
  by_cases hneg : s.state < 0
  · rw [acquireReadPred, if_pos hneg]
    exact acquireWritePred_parked_of hnm (by omega)
  · rw [acquireReadPred_nonneg me s hneg,
      if_neg (fun hc => hc.elim hw hnm)]

/-- `release` by a current owner: resulting state and notify flag. -/
theorem releaseCall_mem (me : Task) (s : CoreState) (hmem : me ∈ s.owning) :
    releaseCall me s =
      .ok ⟨if 0 < s.state then s.state - 1 else s.state + 1, s.waiting,
            s.owning.erase me⟩
        ((if 0 < s.state then s.state - 1 else s.state + 1) == 0) := by
  unfold releaseCall
  rw [if_pos hmem]

/-- An immediately granted `acquire_read` call is a `true` evaluation of
the wait predicate. -/
theorem acquireReadCall_acquired {me : Task} {s s1 : CoreState}
    (h : acquireReadCall me s = .acquired s1) :
    acquireReadPred me s = .ok (true, s1) := by
  unfold acquireReadCall at h
  split at h
  · rename_i s2 heq
    injection h with h2
    rw [← h2]
    exact heq
  · exact AcquireOutcome.noConfusion h
  · exact AcquireOutcome.noConfusion h

/-- An immediately granted `acquire_write` call: guard and final state
(with the `_waiting` bump already undone by the `finally`). -/
theorem acquireWriteCall_acquired {me : Task} {s s1 : CoreState}
    (h : acquireWriteCall me s = .acquired s1) :
    (s.state = 0 ∨ (s.state < 0 ∧ me ∈ s.owning)) ∧
    s1 = ⟨s.state - 1, s.waiting, s.owning ++ [me]⟩ := by
  simp only [acquireWriteCall] at h
  split at h
  · rename_i s2 heq
    obtain ⟨hc, hs2⟩ := acquireWritePred_ok_true heq
    injection h with h2
    subst hs2
    exact ⟨hc, h2.symm⟩
  · exact AcquireOutcome.noConfusion h
  · exact AcquireOutcome.noConfusion h

/-- Appending a hold and then erasing one occurrence of the same task is a
permutation identity (the erased occurrence may be an earlier one). -/
theorem perm_erase_append_self (l : List Task) (a : Task) :
    List.Perm ((l ++ [a]).erase a) l := by
  have h := (List.perm_append_singleton a l).erase a
  rwa [List.erase_cons_head] at h

/-! ### The claims -/

/-- Claim C1: in every state reachable by any sequence of acquire and
release operations, whenever `_state` is negative (exclusive mode) the
`_owning` list contains at most one distinct task, and every entry in it is
that single owning task. -/
theorem exclusive_mode_single_owner (s : CoreState) (hs : Reachable s)
    (hneg : s.state < 0) :
    ∃ t : Task, ∀ x ∈ s.owning, x = t := by
  have hp := (inv_reachable s hs).2 hneg
  by_cases hne : s.owning = []
  · exact ⟨0, fun x hx => absurd (hne ▸ hx) (List.not_mem_nil x)⟩
  · exact ⟨s.owning.head hne,
      fun x hx => hp x hx _ (List.head_mem hne)⟩

/-- Witness for C1 at the reachable state reached by one immediately
successful exclusive acquisition. -/
theorem exclusive_mode_single_owner_witness :
    ∃ t : Task, ∀ x ∈ (⟨-1, 0, [0]⟩ : CoreState).owning, x = t :=
  exclusive_mode_single_owner ⟨-1, 0, [0]⟩
    ⟨[.writeEnter, .writeTry 0, .writeExit], by decide⟩ (by decide)

/-- Claim C2: in every reachable state the absolute value of `_state`
equals the length of `_owning`; in particular `_state = 0` implies
`_owning` is empty. -/
theorem counting_invariant (s : CoreState) (hs : Reachable s) :
    s.state.natAbs = s.owning.length ∧ (s.state = 0 → s.owning = []) := by
  have h := (inv_reachable s hs).1
  exact ⟨h, fun h0 => List.length_eq_zero.mp (by rw [← h, h0]; rfl)⟩

/-- Witness for C2 at the reachable state after one shared acquisition. -/
theorem counting_invariant_witness :
    (⟨1, 0, [2]⟩ : CoreState).state.natAbs =
      (⟨1, 0, [2]⟩ : CoreState).owning.length ∧
    ((⟨1, 0, [2]⟩ : CoreState).state = 0 →
      (⟨1, 0, [2]⟩ : CoreState).owning = []) :=
  counting_invariant ⟨1, 0, [2]⟩ ⟨[.readTry 2], by decide⟩

/-- Claim C3: `acquire_write` raises the upgrade rejection iff the caller
currently holds the lock in shared mode; the rejection leaves `_state`,
`_owning` and `_waiting` unchanged (the `finally` undoes the `_waiting`
bump); and the rejection is synchronous: a call that parks belongs to a
non-owner, and for a non-owner the wait predicate can never raise, so no
re-evaluation after a parked wait produces the error. -/
theorem upgrade_forbidden_iff_shared_holder (me : Task) (s : CoreState) :
    ((∃ s1, acquireWriteCall me s = .failed .upgradeForbidden s1) ↔
      0 < s.state ∧ me ∈ s.owning) ∧
    (∀ e s1, acquireWriteCall me s = .failed e s1 →
      e = .upgradeForbidden ∧ s1 = s) ∧
    (∀ s1, acquireWriteCall me s = .parked s1 →
      me ∉ s.owning ∧ s1 = { s with waiting := s.waiting + 1 }) ∧
    (me ∉ s.owning → ∀ e, acquireWritePred me s ≠ .error e) := by
  have hfail : ∀ e s1, acquireWriteCall me s = .failed e s1 →
      (0 < s.state ∧ me ∈ s.owning) ∧ e = .upgradeForbidden ∧ s1 = s := by
    intro e s1 h
    simp only [acquireWriteCall] at h
    split at h
    · exact AcquireOutcome.noConfusion h
    · exact AcquireOutcome.noConfusion h
    · rename_i e' heq
      obtain ⟨hpos, hmem, he⟩ := acquireWritePred_error heq
      injection h with h1 h2
      exact ⟨⟨hpos, hmem⟩, by rw [← h1, he], by rw [← h2]; rfl⟩
  refine ⟨⟨fun ⟨s1, h⟩ => (hfail _ s1 h).1, fun ⟨hpos, hmem⟩ => ?_⟩,
    fun e s1 h => (hfail e s1 h).2, fun s1 h => ?_, fun hnm e h => ?_⟩
  · have hpred : acquireWritePred me { s with waiting := s.waiting + 1 } =
        .error .upgradeForbidden :=
      acquireWritePred_error_of _ _ hpos hmem
    refine ⟨s, ?_⟩
    simp only [acquireWriteCall]
    rw [hpred]
    rfl
  · simp only [acquireWriteCall] at h
    split at h
    · exact AcquireOutcome.noConfusion h
    · rename_i s2 heq
      injection h with h1
      obtain ⟨hnm, -, -⟩ := acquireWritePred_parked heq
      exact ⟨hnm, h1.symm⟩
    · exact AcquireOutcome.noConfusion h
  · exact hnm (acquireWritePred_error h).2.1

/-- Witness for C3: a task holding one shared hold is rejected with the
state unchanged. -/
theorem upgrade_forbidden_iff_shared_holder_witness :
    LockError.upgradeForbidden = .upgradeForbidden ∧
    (⟨1, 0, [3]⟩ : CoreState) = ⟨1, 0, [3]⟩ :=
  (upgrade_forbidden_iff_shared_holder 3 ⟨1, 0, [3]⟩).2.1
    .upgradeForbidden ⟨1, 0, [3]⟩ (by decide)

/-- Claim C4: `release` raises `notHeld` iff the caller has no occurrence
in `_owning`, in which case the state is returned unchanged (the exception
fires before any mutation); a release by a holder removes exactly one
occurrence of the caller from `_owning` and leaves `_waiting` alone. -/
theorem release_not_held_atomicity (me : Task) (s : CoreState) :
    ((∃ e s1, releaseCall me s = .err e s1) ↔ me ∉ s.owning) ∧
    (∀ e s1, releaseCall me s = .err e s1 → e = .notHeld ∧ s1 = s) ∧
    (∀ s1 b, releaseCall me s = .ok s1 b →
      me ∈ s.owning ∧ s1.waiting = s.waiting ∧
      s1.owning.count me + 1 = s.owning.count me ∧
      ∀ t, t ≠ me → s1.owning.count t = s.owning.count t) := by
  refine ⟨⟨fun ⟨e, s1, h⟩ => (releaseCall_err h).2.2, fun hnm =>
      ⟨.notHeld, s, by unfold releaseCall; rw [if_neg hnm]⟩⟩,
    fun e s1 h => ⟨(releaseCall_err h).1, (releaseCall_err h).2.1⟩,
    fun s1 b h => ?_⟩
  obtain ⟨hmem, hs, -⟩ := releaseCall_ok h
  subst hs
  refine ⟨hmem, rfl, ?_, fun t ht => ?_⟩
  · show (s.owning.erase me).count me + 1 = s.owning.count me
    rw [List.count_erase_self]
    have hc : s.owning.count me ≠ 0 :=
      fun h0 => (List.count_eq_zero.mp h0) hmem
    omega
  · show (s.owning.erase me).count t = s.owning.count t
    exact List.count_erase_of_ne ht s.owning

/-- Witness for C4: releasing without holding fails and returns the state
unchanged. -/
theorem release_not_held_atomicity_witness :
    LockError.notHeld = .notHeld ∧ (⟨3, 2, [5]⟩ : CoreState) = ⟨3, 2, [5]⟩ :=
  (release_not_held_atomicity 9 ⟨3, 2, [5]⟩).2.1 .notHeld ⟨3, 2, [5]⟩
    (by decide)

/-- Claim C5: while `_waiting` is positive, a caller not in `_owning`
parks in `acquire_read` without changing the state (so it cannot enter
shared mode before the pending writers are gone), whereas a caller already
holding the lock in shared mode always succeeds immediately. -/
theorem writer_preference (me : Task) (s : CoreState) :
    (0 < s.waiting → me ∉ s.owning → acquireReadCall me s = .parked s) ∧
    (0 < s.state → me ∈ s.owning →
      acquireReadCall me s =
        .acquired { s with state := s.state + 1,
                           owning := s.owning ++ [me] }) := by
  constructor
  · intro hw hnm
    unfold acquireReadCall
    rw [acquireReadPred_blocked me s (by omega) hnm]
  · intro hpos hmem
    unfold acquireReadCall
    rw [acquireReadPred_nonneg me s (by omega), if_pos (Or.inr hmem)]

/-- Witness for C5: a fresh reader parks behind a pending writer while a
recursing shared holder is admitted at once. -/
theorem writer_preference_witness :
    acquireReadCall 9 ⟨1, 1, [4]⟩ = .parked ⟨1, 1, [4]⟩ ∧
    acquireReadCall 4 ⟨2, 3, [4]⟩ = .acquired ⟨3, 3, [4, 4]⟩ :=
  ⟨(writer_preference 9 ⟨1, 1, [4]⟩).1 (by decide) (by decide),
   (writer_preference 4 ⟨2, 3, [4]⟩).2 (by decide) (by decide)⟩

/-- Claim C6 (counterexample): the claim says an `acquire_read` that finds
the lock idle always succeeds immediately regardless of `_waiting`; but at
the reachable state with `_state = 0` and one pending writer, a fresh
reader parks instead of acquiring. -/
theorem acquire_read_idle_parks_counterexample :
    Reachable ⟨0, 1, []⟩ ∧
    acquireReadCall 0 ⟨0, 1, []⟩ = .parked ⟨0, 1, []⟩ :=
  ⟨⟨[.readTry 1, .writeEnter, .writeTry 2, .release 1], by decide⟩,
   by decide⟩

/-- Claim C6 (amended): an `acquire_read` that finds the lock idle and no
writer pending succeeds immediately without parking, transitioning to
Shared(1) with the caller appended to `_owning`. -/
theorem acquire_read_idle_no_pending_writers (me : Task) (s : CoreState)
    (h0 : s.state = 0) (hw : s.waiting = 0) :
    acquireReadCall me s = .acquired ⟨1, s.waiting, s.owning ++ [me]⟩ := by
  unfold acquireReadCall
  rw [acquireReadPred_nonneg me s (by omega), if_pos (Or.inl hw)]
  show AcquireOutcome.acquired _ = _
  rw [h0]
  rfl

/-- Witness for the amended C6 at the freshly constructed core. -/
theorem acquire_read_idle_no_pending_writers_witness :
    acquireReadCall 5 ⟨0, 0, []⟩ = .acquired ⟨1, 0, [5]⟩ :=
  acquire_read_idle_no_pending_writers 5 ⟨0, 0, []⟩ rfl rfl

/-- Claim C7: an `acquire_read` in exclusive mode (`_state < 0`) by a task
in `_owning` is granted immediately as one more exclusive hold
(`_state` goes from −k to −(k+1), caller appended), while a task not in
`_owning` parks without changing the state. -/
theorem read_in_exclusive_mode (me : Task) (s : CoreState)
    (hneg : s.state < 0) :
    (me ∈ s.owning → acquireReadCall me s =
      .acquired { s with state := s.state - 1,
                         owning := s.owning ++ [me] }) ∧
    (me ∉ s.owning → acquireReadCall me s = .parked s) := by
  constructor
  · intro hmem
    unfold acquireReadCall
    rw [acquireReadPred, if_pos hneg, acquireWritePred,
      if_pos (Or.inr ⟨hneg, hmem⟩)]
  · intro hnm
    unfold acquireReadCall
    rw [acquireReadPred, if_pos hneg, acquireWritePred_parked_of hnm
      (by omega)]

/-- Witness for C7: a recursing exclusive owner is promoted, a stranger
parks. -/
theorem read_in_exclusive_mode_witness :
    acquireReadCall 4 ⟨-2, 1, [4, 4]⟩ = .acquired ⟨-3, 1, [4, 4, 4]⟩ ∧
    acquireReadCall 6 ⟨-2, 1, [4, 4]⟩ = .parked ⟨-2, 1, [4, 4]⟩ :=
  ⟨(read_in_exclusive_mode 4 ⟨-2, 1, [4, 4]⟩ (by decide)).1 (by decide),
   (read_in_exclusive_mode 6 ⟨-2, 1, [4, 4]⟩ (by decide)).2 (by decide)⟩

/-- Claim C8: a successful `release` moves `_state` one step toward zero
according to its current sign (decrement when positive, increment
otherwise); and both handles apply this same rule because
`_WriterLock` inherits `release` unchanged from `_ReaderLock`, which
forwards to the single core `release`. -/
theorem release_sign_directed (me : Task) (s : CoreState)
    (hmem : me ∈ s.owning) :
    releaseCall me s =
      .ok ⟨if 0 < s.state then s.state - 1 else s.state + 1, s.waiting,
            s.owning.erase me⟩
        ((if 0 < s.state then s.state - 1 else s.state + 1) == 0) ∧
    writerRelease = readerRelease :=
  ⟨releaseCall_mem me s hmem, rfl⟩

/-- Witness for C8: releasing one of two shared holds decrements the
count. -/
theorem release_sign_directed_witness :
    releaseCall 7 ⟨2, 0, [7, 7]⟩ = .ok ⟨1, 0, [7]⟩ false ∧
    writerRelease = readerRelease :=
  ⟨(release_sign_directed 7 ⟨2, 0, [7, 7]⟩ (by decide)).1,
   (release_sign_directed 7 ⟨2, 0, [7, 7]⟩ (by decide)).2⟩

/-- Claim C9: a successful `release` calls `notify_all` iff the resulting
`_state` is zero; a release that leaves the lock held wakes nobody, and a
failing release wakes nobody (the exception fires before the notify). -/
theorem release_wake_policy (me : Task) (s : CoreState) :
    (∀ s1 b, releaseCall me s = .ok s1 b → (b = true ↔ s1.state = 0)) ∧
    (∀ e s1, releaseCall me s = .err e s1 →
      (ReleaseResult.err e s1).notifies = false) ∧
    ((releaseCall me s).notifies = true →
      ∃ s1, releaseCall me s = .ok s1 true ∧ s1.state = 0) := by
  refine ⟨fun s1 b h => ?_, fun e s1 h => rfl, fun hn => ?_⟩
  · obtain ⟨hmem, hs, hb⟩ := releaseCall_ok h
    subst hs
    subst hb
    show ((if 0 < s.state then s.state - 1 else s.state + 1) == 0) = true ↔
      (if 0 < s.state then s.state - 1 else s.state + 1) = 0
    exact beq_iff_eq
  · cases hr : releaseCall me s with
    | ok s1 b =>
      rw [hr] at hn
      have hb : b = true := hn
      subst hb
      obtain ⟨hmem, hs, hb'⟩ := releaseCall_ok hr
      refine ⟨s1, rfl, ?_⟩
      subst hs
      exact beq_iff_eq.mp hb'.symm
    | err e s1 =>
      rw [hr] at hn
      exact absurd hn (by simp [ReleaseResult.notifies])

/-- Witness for C9: the last holder's release notifies and lands in the
idle state. -/
theorem release_wake_policy_witness :
    true = true ↔ (⟨0, 5, []⟩ : CoreState).state = 0 :=
  (release_wake_policy 3 ⟨1, 5, [3]⟩).1 ⟨0, 5, []⟩ true (by decide)

/-- Claim C10: from any state in which the caller's `acquire_read`
(resp. `acquire_write`) is granted immediately, following it with
`release` restores the original `_state`, `_waiting`, and the original
`_owning` as a multiset. -/
theorem acquire_release_round_trip (me : Task) (s : CoreState) :
    (∀ s1, acquireReadCall me s = .acquired s1 →
      ∃ s2 b, releaseCall me s1 = .ok s2 b ∧ s2.state = s.state ∧
        s2.waiting = s.waiting ∧
        (s2.owning : Multiset Task) = (s.owning : Multiset Task)) ∧
    (∀ s1, acquireWriteCall me s = .acquired s1 →
      ∃ s2 b, releaseCall me s1 = .ok s2 b ∧ s2.state = s.state ∧
        s2.waiting = s.waiting ∧
        (s2.owning : Multiset Task) = (s.owning : Multiset Task)) := by
  constructor
  · intro s1 h
    rcases acquireReadPred_ok_true (acquireReadCall_acquired h) with
      ⟨hge, hs⟩ | ⟨hneg, hmem, hs⟩
    · subst hs
      have hmem1 : me ∈ s.owning ++ [me] := by simp
      refine ⟨_, _, releaseCall_mem me _ hmem1, ?_, rfl, ?_⟩
      · show (if 0 < s.state + 1 then s.state + 1 - 1 else s.state + 1 + 1) =
          s.state
        rw [if_pos (by omega)]
        omega
      · exact Multiset.coe_eq_coe.mpr (perm_erase_append_self s.owning me)
    · subst hs
      have hmem1 : me ∈ s.owning ++ [me] := by simp
      refine ⟨_, _, releaseCall_mem me _ hmem1, ?_, rfl, ?_⟩
      · show (if 0 < s.state - 1 then s.state - 1 - 1 else s.state - 1 + 1) =
          s.state
        rw [if_neg (by omega)]
        omega
      · exact Multiset.coe_eq_coe.mpr (perm_erase_append_self s.owning me)
  · intro s1 h
    obtain ⟨hc, hs⟩ := acquireWriteCall_acquired h
    subst hs
    have hmem1 : me ∈ s.owning ++ [me] := by simp
    refine ⟨_, _, releaseCall_mem me _ hmem1, ?_, rfl, ?_⟩
    · show (if 0 < s.state - 1 then s.state - 1 - 1 else s.state - 1 + 1) =
        s.state
      rw [if_neg (by rcases hc with h0 | ⟨hneg, -⟩ <;> omega)]
      omega
    · exact Multiset.coe_eq_coe.mpr (perm_erase_append_self s.owning me)

/-- Witness for C10: a shared acquisition from the idle core followed by a
release lands back in the idle core. -/
theorem acquire_release_round_trip_witness :
    ∃ s2 b, releaseCall 3 ⟨1, 0, [3]⟩ = .ok s2 b ∧
      s2.state = (⟨0, 0, []⟩ : CoreState).state ∧
      s2.waiting = (⟨0, 0, []⟩ : CoreState).waiting ∧
      (s2.owning : Multiset Task) =
        ((⟨0, 0, []⟩ : CoreState).owning : Multiset Task) :=
  (acquire_release_round_trip 3 ⟨0, 0, []⟩).1 ⟨1, 0, [3]⟩ (by decide)

end Aiorwlock
